import Mathlib

/-
  Verification of the iTunes artwork finder core logic.
  The query parser and the artwork URL deriver from src/js/app.js are
  embedded as executable functions over lists of characters, mirroring the
  JavaScript string and regex operations used by the source.
-/

/-- Lowercase an ASCII letter, other characters unchanged. -/
def lowerChar (c : Char) : Char :=
  if 65 ≤ c.toNat ∧ c.toNat ≤ 90 then Char.ofNat (c.toNat + 32) else c

/-- Lowercasing of a JS string, modelled on ASCII letters. -/
def jsToLower (s : List Char) : List Char := s.map lowerChar

/-- Whitespace characters recognized by JS trim and the regex class backslash-s
    (the common members). -/
def isWsChar (c : Char) : Bool :=
  c.toNat = 32 || c.toNat = 9 || c.toNat = 10 || c.toNat = 13 ||
  c.toNat = 11 || c.toNat = 12 || c.toNat = 160 ||
  c.toNat = 0x2028 || c.toNat = 0x2029 || c.toNat = 0xFEFF

/-- Decimal digit test, as the regex class backslash-d. -/
def isDigitC (c : Char) : Bool := 48 ≤ c.toNat && c.toNat ≤ 57

/-- Line terminators, which the regex dot never matches in JS. -/
def isLineTerm (c : Char) : Bool :=
  c.toNat = 10 || c.toNat = 13 || c.toNat = 0x2028 || c.toNat = 0x2029

/-- Case-insensitive prefix test against a lowercase pattern. -/
def startsWithCI (pat s : List Char) : Bool :=
  pat.isPrefixOf (jsToLower (s.take pat.length))

/-- Substring containment (case-sensitive), as JS String.includes. -/
def containsSub (pat : List Char) : List Char → Bool
  | [] => pat.isPrefixOf []
  | c :: rest => pat.isPrefixOf (c :: rest) || containsSub pat rest

/-- Case-insensitive containment of a lowercase token. -/
def containsCI (pat s : List Char) : Bool := containsSub pat (jsToLower s)

/-- Left trim of whitespace. -/
def trimLeftWs (s : List Char) : List Char := s.dropWhile isWsChar

/-- JS String.trim on both ends. -/
def jsTrim (s : List Char) : List Char :=
  ((trimLeftWs s).reverse.dropWhile isWsChar).reverse

/-- Suffix test, as JS String.endsWith. -/
def endsWith (pat s : List Char) : Bool := pat.reverse.isPrefixOf s.reverse

/-- Drop the last n characters of a string. -/
def dropLastN (n : Nat) (s : List Char) : List Char := s.take (s.length - n)

/-- Anchored suffix replacement, as a JS replace with an end-anchored literal:
    when the string ends with the old suffix the suffix is replaced, otherwise
    the string is returned unchanged. -/
def replaceSuffix (old new s : List Char) : List Char :=
  if endsWith old s then dropLastN old.length s ++ new else s

/-- Worker for global case-insensitive removal of a literal token.  The Nat
    argument counts characters still to be skipped after a match. -/
def removeTokCIGo (p0 : Char) (pt : List Char) : Nat → List Char → List Char
  | _, [] => []
  | Nat.succ k, _ :: rest => removeTokCIGo p0 pt k rest
  | 0, c :: rest =>
      if startsWithCI (p0 :: pt) (c :: rest) then removeTokCIGo p0 pt pt.length rest
      else c :: removeTokCIGo p0 pt 0 rest

/-- Global case-insensitive removal of the literal token .png, as the source
    expression rawTerm.replace of the png token with the empty string. -/
def removePngAll (s : List Char) : List Char :=
  removeTokCIGo '.' ("png".data) 0 s

/-- Token for the png format modifier. -/
def pngTok : List Char := ".png".data

/-- Media kinds distinguished by the source (its entity strings). -/
inductive Entity where
  | album | song | movie | tvSeason | software | audiobook | ebook
deriving DecidableEq

/-- Result of parseSearchTerm in src/js/app.js. -/
structure ParsedQuery where
  searchTerm : List Char
  entity : Entity
  countryCode : List Char
  usePng : Bool
  attrib : List Char
  lookupMode : Bool
deriving DecidableEq

/-- Default country code. -/
def usTok : List Char := "us".data

/-- Country prefix table of parseSearchTerm, in source order. -/
def countryPairs : List (List Char × List Char) :=
  [("uk:".data, "gb".data), ("us:".data, "us".data), ("ca:".data, "ca".data),
   ("au:".data, "au".data), ("fr:".data, "fr".data), ("de:".data, "de".data),
   ("jp:".data, "jp".data), ("it:".data, "it".data), ("es:".data, "es".data),
   ("nl:".data, "nl".data), ("br:".data, "br".data), ("mx:".data, "mx".data),
   ("ru:".data, "ru".data), ("se:".data, "se".data), ("cn:".data, "cn".data),
   ("kr:".data, "kr".data), ("in:".data, "in".data), ("za:".data, "za".data),
   ("no:".data, "no".data), ("dk:".data, "dk".data), ("fi:".data, "fi".data),
   ("pl:".data, "pl".data), ("at:".data, "at".data), ("ch:".data, "ch".data),
   ("be:".data, "be".data), ("pt:".data, "pt".data), ("gr:".data, "gr".data),
   ("tr:".data, "tr".data), ("ar:".data, "ar".data), ("cl:".data, "cl".data),
   ("co:".data, "co".data), ("pe:".data, "pe".data), ("eg:".data, "eg".data),
   ("th:".data, "th".data), ("id:".data, "id".data), ("my:".data, "my".data),
   ("sg:".data, "sg".data), ("ph:".data, "ph".data), ("vn:".data, "vn".data),
   ("tw:".data, "tw".data), ("hk:".data, "hk".data), ("nz:".data, "nz".data),
   ("ie:".data, "ie".data), ("cz:".data, "cz".data), ("sk:".data, "sk".data),
   ("hu:".data, "hu".data), ("ro:".data, "ro".data), ("bg:".data, "bg".data),
   ("hr:".data, "hr".data), ("si:".data, "si".data), ("lt:".data, "lt".data),
   ("lv:".data, "lv".data), ("ee:".data, "ee".data), ("is:".data, "is".data),
   ("lu:".data, "lu".data), ("mt:".data, "mt".data), ("cy:".data, "cy".data)]

/-- Entity prefix table of parseSearchTerm, in source order. -/
def entityPairs : List (List Char × Entity) :=
  [("album:".data, Entity.album), ("song:".data, Entity.song),
   ("audiobook:".data, Entity.audiobook), ("ebook:".data, Entity.ebook),
   ("movie:".data, Entity.movie), ("tv:".data, Entity.tvSeason),
   ("app:".data, Entity.software)]

/-- Attribute prefix table of parseSearchTerm: token, default entity,
    attribute name, in source order. -/
def attrPairs : List (List Char × Entity × List Char) :=
  [("artist:".data, Entity.album, "artistTerm".data),
   ("title:".data, Entity.album, "titleTerm".data),
   ("author:".data, Entity.audiobook, "authorTerm".data),
   ("director:".data, Entity.movie, "directorTerm".data),
   ("actor:".data, Entity.movie, "actorTerm".data),
   ("composer:".data, Entity.album, "composerTerm".data)]

/-- The scheme part of the storefront URL pattern: http with an optional s
    and the colon-slash-slash, case-insensitively.  Returns its length. -/
def schemeLen (s : List Char) : Option Nat :=
  if startsWithCI ("https://".data) s then some 8
  else if startsWithCI ("http://".data) s then some 7
  else none

/-- The storefront host alternatives of the URL pattern, each with the
    following slash, case-insensitively.  Returns the consumed length. -/
def hostLen (s : List Char) : Option Nat :=
  if startsWithCI ("itunes.apple.com/".data) s then some 17
  else if startsWithCI ("apps.apple.com/".data) s then some 15
  else if startsWithCI ("books.apple.com/".data) s then some 16
  else none

/-- Token slash-i-d of the URL pattern. -/
def idTok : List Char := "/id".data

/-- Does position j of the path start the slash-i-d token followed by a
    digit, case-insensitively. -/
def idOkAt (afterHost : List Char) (j : Nat) : Bool :=
  startsWithCI idTok (afterHost.drop j) &&
    (match (afterHost.drop (j + 3)) with
     | [] => false
     | c :: _ => isDigitC c)

/-- Search downward for the largest j at which the id token matches; this is
    the backtracking behavior of the greedy non-whitespace class followed by
    the id token in the source regex. -/
def findIdPosGo (afterHost : List Char) : Nat → Option Nat
  | 0 => none
  | Nat.succ j =>
      if idOkAt afterHost (j + 1) then some (j + 1) else findIdPosGo afterHost j

/-- Position of the id token inside the path, the greedy match. -/
def findIdPos (afterHost : List Char) : Option Nat :=
  findIdPosGo afterHost ((afterHost.takeWhile (fun c => !(isWsChar c))).length)

/-- Attempt to match the storefront URL regex at the start of s.  Returns the
    whole matched text and the captured digits. -/
def matchUrlAt (s : List Char) : Option (List Char × List Char) :=
  match schemeLen s with
  | none => none
  | some n1 =>
    match hostLen (s.drop n1) with
    | none => none
    | some n2 =>
      let afterHost := s.drop (n1 + n2)
      match findIdPos afterHost with
      | none => none
      | some j =>
        let digits := (afterHost.drop (j + 3)).takeWhile isDigitC
        some (s.take (n1 + n2 + j + 3 + digits.length), digits)

/-- Leftmost match of the storefront URL regex, as JS String.match. -/
def urlMatch : List Char → Option (List Char × List Char)
  | [] => none
  | c :: rest =>
      match matchUrlAt (c :: rest) with
      | some r => some r
      | none => urlMatch rest

/-- Entity derived from the matched URL text, lines 259 to 265 of app.js. -/
def urlEntity (whole : List Char) : Entity :=
  let w := jsToLower whole
  if containsSub ("/app/".data) w then Entity.software
  else if containsSub ("/movie/".data) w then Entity.movie
  else if containsSub ("/tv-season/".data) w || containsSub ("/tvshow/".data) w then
    Entity.tvSeason
  else if containsSub ("/audiobook/".data) w then Entity.audiobook
  else if containsSub ("/book/".data) w || containsSub ("/books/".data) w then
    Entity.ebook
  else Entity.album

/-- Country prefix step of parseSearchTerm: returns the country code and the
    remaining term. -/
def countryStep (st : List Char) : List Char × List Char :=
  match countryPairs.find? (fun pr => pr.1.isPrefixOf (jsToLower st)) with
  | some pr => (pr.2, jsTrim (st.drop pr.1.length))
  | none => (usTok, st)

/-- Entity prefix step of parseSearchTerm: returns the entity, whether an
    explicit entity prefix was found, and the remaining term. -/
def entityStep (st : List Char) : Entity × Bool × List Char :=
  match entityPairs.find? (fun pr => pr.1.isPrefixOf (jsToLower st)) with
  | some pr => (pr.2, true, jsTrim (st.drop pr.1.length))
  | none => (Entity.album, false, st)

/-- Prefix parsing block of parseSearchTerm, lines 338 to 372 of app.js,
    applied when no URL was recognized and the term is nonempty. -/
def pfxParse (b : Bool) (st0 : List Char) : ParsedQuery :=
  let c := countryStep st0
  let e := entityStep c.2
  match attrPairs.find? (fun pr => pr.1.isPrefixOf (jsToLower e.2.2)) with
  | some pr =>
      { searchTerm := jsTrim ((e.2.2).drop pr.1.length),
        entity := if e.2.1 then e.1 else pr.2.1,
        countryCode := c.1, usePng := b, attrib := pr.2.2, lookupMode := false }
  | none =>
      { searchTerm := e.2.2, entity := e.1, countryCode := c.1,
        usePng := b, attrib := [], lookupMode := false }

/-- Embedding of parseSearchTerm, lines 211 to 378 of app.js. -/
def parseSearchTerm (raw : List Char) : ParsedQuery :=
  let png := containsCI pngTok raw
  let raw2 := if png then jsTrim (removePngAll raw) else raw
  let st0 := if containsCI pngTok raw2 then jsTrim (removePngAll raw2) else raw2
  match urlMatch raw2 with
  | some wid =>
      { searchTerm := wid.2, entity := urlEntity wid.1, countryCode := usTok,
        usePng := png, attrib := [], lookupMode := true }
  | none =>
      if st0 = [] then
        { searchTerm := st0, entity := Entity.album, countryCode := usTok,
          usePng := png, attrib := [], lookupMode := false }
      else pfxParse png st0

/-- Extensions recognized by the bb-stripping regexes of app.js. -/
def bbExts : List (List Char) := [".jpg".data, ".png".data, ".webp".data, ".tif".data]

/-- Jpg extension token. -/
def jpgE : List Char := ".jpg".data

/-- Png extension token. -/
def pngE : List Char := ".png".data

/-- Double-b marker token. -/
def bbTok : List Char := "bb".data

/-- Match the tail of the size token regex right after a slash: one or more
    digits, an x, one or more digits, and an optional double b, all greedy.
    Returns the remainder after the match. -/
def matchSizeTok (s : List Char) : Option (List Char) :=
  let d1 := s.takeWhile isDigitC
  if d1 = [] then none
  else
    match s.drop d1.length with
    | [] => none
    | c :: rest2 =>
      if c = 'x' then
        let d2 := rest2.takeWhile isDigitC
        if d2 = [] then none
        else
          let rest3 := rest2.drop d2.length
          some (if bbTok.isPrefixOf rest3 then rest3.drop 2 else rest3)
      else none

/-- First slash-anchored size token replaced by repl, as the non-global
    JS replace on line 705 of app.js; later text is kept verbatim. -/
def replaceFirstSizeTok (repl : List Char) : List Char → List Char
  | [] => []
  | c :: rest =>
      if c = '/' then
        match matchSizeTok rest with
        | some rest2 => c :: (repl ++ rest2)
        | none => c :: replaceFirstSizeTok repl rest
      else c :: replaceFirstSizeTok repl rest

/-- Does the string contain a slash-anchored size token anywhere. -/
def hasSlashSizeTok : List Char → Bool
  | [] => false
  | c :: rest => ((c == '/') && (matchSizeTok rest).isSome) || hasSlashSizeTok rest

/-- Replacement text for the size token: size, x, size, dash 999. -/
def sizeRepl (sz : List Char) : List Char := sz ++ 'x' :: (sz ++ "-999".data)

/-- Embedding of fixArtworkUrl, lines 703 to 715 of app.js: replace the first
    slash-anchored size token, append the jpg extension when the result does
    not already end with it, and turn a trailing jpg into png when requested. -/
def fixArtworkUrl (p : Bool) (url sz : List Char) : List Char :=
  let u := replaceFirstSizeTok (sizeRepl sz) url
  let u2 := if endsWith jpgE u then u else u ++ jpgE
  if p then replaceSuffix jpgE pngE u2 else u2

/-- First occurrence of pat whose following text passes check is replaced by
    repl; models a first-occurrence JS replace with a lookahead. -/
def replaceFirstCond (pat repl : List Char) (check : List Char → Bool) : List Char → List Char
  | [] => []
  | c :: rest =>
      if pat.isPrefixOf (c :: rest) && check ((c :: rest).drop pat.length) then
        repl ++ (c :: rest).drop pat.length
      else c :: replaceFirstCond pat repl check rest

/-- First-occurrence literal replacement, as a JS replace with a string or
    plain literal regex argument. -/
def replaceFirstSub (pat repl : List Char) (s : List Char) : List Char :=
  replaceFirstCond pat repl (fun _ => true) s

/-- Https scheme token. -/
def httpsTok : List Char := "https://".data

/-- Literal middle part of the high-resolution host rewrite regex. -/
def thumbLit : List Char := ".mzstatic.com/image/thumb/".data

/-- Replacement root of the high-resolution host rewrite. -/
def hdRoot : List Char := "https://a1.mzstatic.com/us/r1000/063/".data

/-- Remainder after the first occurrence of pat, scanning left to right. -/
def afterFirstOcc (pat : List Char) : List Char → Option (List Char)
  | [] => none
  | c :: rest =>
      if pat.isPrefixOf (c :: rest) then some ((c :: rest).drop pat.length)
      else afterFirstOcc pat rest

/-- Text up to and excluding the last slash. -/
def upToLastSlash (r : List Char) : List Char :=
  dropLastN ((r.reverse.takeWhile (fun c => !(c == '/'))).length + 1) r

/-- Embedding of the anchored host rewrite regex on lines 724 to 727 of
    app.js: a https URL on a mzstatic image thumb path ending in jpg or png is
    re-rooted under the high-resolution host, keeping the captured path up to
    the last slash and dropping the filename.  The regex dot never crosses a
    line terminator, the lazy leading group selects the first occurrence of the
    literal, and the greedy capture extends to the last slash. -/
def hostRewrite (s : List Char) : List Char :=
  if s.any isLineTerm then s
  else if httpsTok.isPrefixOf s && (endsWith jpgE s || endsWith pngE s) then
    match afterFirstOcc thumbLit (s.drop 8) with
    | some rest => if rest.contains '/' then hdRoot ++ upToLastSlash rest else s
    | none => s
  else s

/-- Embedding of the bb removal on line 729 of app.js: a double b sitting
    between the last slash and a recognized extension at the end of the URL is
    removed; the slash requirement means some slash must precede the marker. -/
def stripBbAfterSlash (s : List Char) : List Char :=
  match bbExts.find? (fun e => endsWith (bbTok ++ e) s) with
  | some e =>
      let pre := dropLastN (2 + e.length) s
      if pre.contains '/' then pre ++ e else s
  | none => s

/-- Embedding of the bb removal used by the movie and tv branches, lines 799
    and 819 of app.js: a double b right before a recognized extension at the
    end is removed, with no slash requirement. -/
def stripBbEnd (s : List Char) : List Char :=
  match bbExts.find? (fun e => endsWith (bbTok ++ e) s) with
  | some e => dropLastN (2 + e.length) s ++ e
  | none => s

/-- Non-jpg extensions removed by the movie and tv branches. -/
def altExts : List (List Char) := [".png".data, ".webp".data, ".tif".data]

/-- Remove a trailing non-jpg extension, as the replace on line 803 of app.js. -/
def stripAltExt (s : List Char) : List Char :=
  match altExts.find? (fun e => endsWith e s) with
  | some e => dropLastN e.length s
  | none => s

/-- Extension normalization of the movie and tv branches, lines 801 to 807 of
    app.js: if the URL does not end in jpg, drop a trailing alternative
    extension and then append jpg when still missing. -/
def ensureJpgMovie (s : List Char) : List Char :=
  if endsWith jpgE s then s
  else
    let t := stripAltExt s
    if endsWith jpgE t then t else t ++ jpgE

/-- Size token of the thumbnail template. -/
def tok100 : List Char := "100x100".data

/-- Movie replacement text. -/
def movieRepl : List Char := "10000x10000-999".data

/-- Embedding of the movie branch HD URL, lines 795 to 811 of app.js. -/
def movieHdUrl (p : Bool) (url : List Char) : List Char :=
  let s := replaceFirstSub tok100 movieRepl url
  let s2 := stripBbEnd s
  let s3 := ensureJpgMovie s2
  if p then replaceSuffix jpgE pngE s3 else s3

/-- Embedding of the tv branch HD URL, lines 815 to 831 of app.js; the source
    duplicates the movie code verbatim. -/
def tvHdUrl (p : Bool) (url : List Char) : List Char :=
  let s := replaceFirstSub tok100 movieRepl url
  let s2 := stripBbEnd s
  let s3 := ensureJpgMovie s2
  if p then replaceSuffix jpgE pngE s3 else s3

/-- Ebook size token. -/
def ebookSize : List Char := "1467x2200".data

/-- Ebook size token with the resolution marker. -/
def ebookSize999 : List Char := "1467x2200-999".data

/-- Resolution marker. -/
def m999 : List Char := "-999".data

/-- Embedding of the ebook URL derivation, lines 732 to 748 of app.js. -/
def ebookArtworkUrl (p : Bool) (url : List Char) : List Char :=
  let a := replaceFirstSub tok100 ebookSize url
  let a2 := replaceFirstCond bbTok [] (fun r => jpgE.isPrefixOf r) a
  let a3 := replaceFirstCond ebookSize ebookSize999 (fun r => jpgE.isPrefixOf r) a2
  let a4 := if endsWith jpgE a3 then a3
            else (if endsWith m999 a3 then a3 else a3 ++ m999) ++ jpgE
  if p then replaceSuffix jpgE pngE a4 else a4

/-- Oversized target used for the maximum resolution URL. -/
def tok10000 : List Char := "10000".data

/-- Embedding of artworkUrl5000, lines 723 to 729 of app.js: resize to the
    oversized target, host rewrite, then conditional bb removal. -/
def artworkUrl5000 (p : Bool) (url : List Char) : List Char :=
  stripBbAfterSlash (hostRewrite (fixArtworkUrl p url tok10000))

/-- Embedding of the software branch HD URL, lines 835 to 847 of app.js. -/
def appHdUrl (p : Bool) (url : List Char) : List Char :=
  let s := artworkUrl5000 p url
  if p then replaceSuffix jpgE pngE s else s

/-- Size and label tokens for the rendered links. -/
def tok600 : List Char := "600".data

/-- Size and label token 1500. -/
def tok1500 : List Char := "1500".data

/-- Size and label token 3000. -/
def tok3000 : List Char := "3000".data

/-- Label for the ebook link. -/
def lab2200 : List Char := "2200".data

/-- Label for the maximum resolution link. -/
def labHD : List Char := "HD".data

/-- Number of download links rendered per media kind. -/
def linkCount : Entity → Nat
  | Entity.audiobook => 2
  | Entity.ebook => 2
  | Entity.movie => 1
  | Entity.tvSeason => 1
  | Entity.software => 1
  | Entity.album => 4
  | Entity.song => 4

/-- Embedding of the download link generation of displayResults, lines 776 to
    858 of app.js: per entity the ordered list of label and URL pairs. -/
def deriveLinks (e : Entity) (p : Bool) (url : List Char) : List (List Char × List Char) :=
  match e with
  | Entity.audiobook =>
      [(tok3000, if p then replaceSuffix jpgE pngE (fixArtworkUrl p url tok3000)
                 else fixArtworkUrl p url tok3000),
       (labHD, artworkUrl5000 p url)]
  | Entity.ebook =>
      [(lab2200, if p then replaceSuffix jpgE pngE (ebookArtworkUrl p url)
                 else ebookArtworkUrl p url),
       (labHD, artworkUrl5000 p url)]
  | Entity.movie => [(labHD, movieHdUrl p url)]
  | Entity.tvSeason => [(labHD, tvHdUrl p url)]
  | Entity.software => [(labHD, appHdUrl p url)]
  | _ => [(tok600, fixArtworkUrl p url tok600),
          (tok1500, fixArtworkUrl p url tok1500),
          (tok3000, fixArtworkUrl p url tok3000),
          (labHD, artworkUrl5000 p url)]

/-- Head test: the first character, if any, fails p. -/
def headNot (p : Char → Bool) : List Char → Bool
  | [] => true
  | c :: _ => !(p c)

/-- A string with no leading and no trailing whitespace. -/
def isTrimmed (s : List Char) : Bool :=
  headNot isWsChar s && headNot isWsChar s.reverse

/-- No slash character occurs in the string. -/
def noSlash : List Char → Bool
  | [] => true
  | c :: r => !(c == '/') && noSlash r
/-- No slash immediately followed by a digit occurs in the string. -/
def noSlashDigit : List Char → Bool
  | [] => true
  | c :: rest => (!(c == '/') || headNot isDigitC rest) && noSlashDigit rest
/-- All prefix tokens recognized by the parser. -/
def pfxKeys : List (List Char) :=
  countryPairs.map Prod.fst ++ entityPairs.map Prod.fst ++ attrPairs.map Prod.fst

/-- No recognized prefix token starts the term, case-insensitively. -/
def noPfxTok (t : List Char) : Bool :=
  !(pfxKeys.any (fun k => k.isPrefixOf (jsToLower t)))

theorem endsWith_iff {e s : List Char} : endsWith e s = true ↔ e <:+ s := by
  unfold endsWith
  rw [ List.isPrefixOf_iff_prefix, List.reverse_prefix]

theorem endsWith_append_self (a e : List Char) : endsWith e (a ++ e) = true :=
  endsWith_iff.mpr (List.suffix_append a e)

theorem endsWith_eq_append {e s : List Char} (h : endsWith e s = true) :
    dropLastN e.length s ++ e = s := by
  rcases endsWith_iff.mp h with ⟨t, rfl⟩
  unfold dropLastN
  rw [List.length_append, Nat.add_sub_cancel, List.take_left]

theorem suffix_unique {e1 e2 s : List Char} (h1 : e1 <:+ s) (h2 : e2 <:+ s)
    (hl : e1.length = e2.length) : e1 = e2 := by
  rcases h1 with ⟨t1, rfl⟩
  rcases h2 with ⟨t2, ht⟩
  have hlen : t2.length = t1.length := by
    have := congrArg List.length ht
    simp only [List.length_append] at this
    omega
  exact ((List.append_inj ht hlen).2).symm

theorem endsWith_replaceSuffix {old new s : List Char} (h : endsWith old s = true) :
    replaceSuffix old new s = dropLastN old.length s ++ new := by
  unfold replaceSuffix
  rw [h]
  simp

theorem endsWith_replaceSuffix_new {old new s : List Char} (h : endsWith old s = true) :
    endsWith new (replaceSuffix old new s) = true := by
  rw [endsWith_replaceSuffix h]
  exact endsWith_append_self _ _

theorem fixArtworkUrl_false_ends_jpg (url sz : List Char) :
    endsWith jpgE (fixArtworkUrl false url sz) = true := by
  unfold fixArtworkUrl
  by_cases h : endsWith jpgE (replaceFirstSizeTok (sizeRepl sz) url) = true
  · simp only [h, if_true, if_pos]
    exact h
  · simp only [Bool.not_eq_true] at h
    simp only [h]
    simp only [Bool.false_eq_true, if_false]
    exact endsWith_append_self _ _

theorem fixArtworkUrl_true_ends_png (url sz : List Char) :
    endsWith pngE (fixArtworkUrl true url sz) = true := by
  unfold fixArtworkUrl
  by_cases h : endsWith jpgE (replaceFirstSizeTok (sizeRepl sz) url) = true
  · simp only [h, if_true, if_pos]
    exact endsWith_replaceSuffix_new h
  · simp only [Bool.not_eq_true] at h
    simp only [h]
    simp only [Bool.false_eq_true, if_false]
    exact endsWith_replaceSuffix_new (endsWith_append_self _ _)

theorem tail_suffix_of_suffix {c : Char} {e s : List Char} (h : (c :: e) <:+ s) :
    e <:+ s := by
  rcases h with ⟨t, rfl⟩
  exact ⟨t ++ [c], by simp⟩

theorem stripBbAfterSlash_ends {E s : List Char} (hE : E = jpgE ∨ E = pngE)
    (h : endsWith E s = true) : endsWith E (stripBbAfterSlash s) = true := by
  unfold stripBbAfterSlash
  cases hf : bbExts.find? (fun e => endsWith (bbTok ++ e) s) with
  | none => exact h
  | some e =>
    have hpe : endsWith (bbTok ++ e) s = true := by
      have h2 := List.find?_some hf
      simpa using h2
    have hmem : e ∈ bbExts := List.mem_of_find?_eq_some hf
    have hes : e <:+ s := by
      have := endsWith_iff.mp hpe
      rcases this with ⟨t, ht⟩
      exact ⟨t ++ bbTok, by rw [← ht]; simp⟩
    have heE : e = E := by
      have hsufE : E <:+ s := endsWith_iff.mp h
      simp only [bbExts, List.mem_cons, List.not_mem_nil, or_false] at hmem
      rcases hmem with h1 | h1 | h1 | h1
      · subst h1
        rcases hE with rfl | rfl
        · rfl
        · exact absurd (suffix_unique hes hsufE rfl) (by decide)
      · subst h1
        rcases hE with rfl | rfl
        · exact absurd (suffix_unique hes hsufE rfl) (by decide)
        · rfl
      · subst h1
        have : ("webp".data) <:+ s := tail_suffix_of_suffix hes
        rcases hE with rfl | rfl
        · exact absurd (suffix_unique this hsufE rfl) (by decide)
        · exact absurd (suffix_unique this hsufE rfl) (by decide)
      · subst h1
        rcases hE with rfl | rfl
        · exact absurd (suffix_unique hes hsufE rfl) (by decide)
        · exact absurd (suffix_unique hes hsufE rfl) (by decide)
    subst heE
    by_cases hc : (dropLastN (2 + e.length) s).contains '/' = true
    · simp only [hc, if_true, if_pos]
      exact endsWith_append_self _ _
    · simp only [Bool.not_eq_true] at hc
      simp only [hc]
      simp only [Bool.false_eq_true, if_false]
      exact h

theorem takeWhile_append_of_all {p : Char → Bool} {l1 l2 : List Char}
    (h : l1.all p = true) : (l1 ++ l2).takeWhile p = l1 ++ l2.takeWhile p := by
  induction l1 with
  | nil => simp
  | cons c t ih =>
    simp only [List.all_cons, Bool.and_eq_true] at h
    simp [List.takeWhile_cons, h.1, ih h.2]

theorem takeWhile_eq_nil_of_head {p : Char → Bool} {l : List Char}
    (h : headNot p l = true) : l.takeWhile p = [] := by
  cases l with
  | nil => rfl
  | cons c t =>
    simp only [headNot, Bool.not_eq_true'] at h
    simp [List.takeWhile_cons, h]

theorem headNot_dropWhile (p : Char → Bool) (l : List Char) :
    headNot p (l.dropWhile p) = true := by
  induction l with
  | nil => rfl
  | cons c t ih =>
    by_cases h : p c = true
    · simpa [List.dropWhile_cons, h] using ih
    · simp only [Bool.not_eq_true] at h
      simp [List.dropWhile_cons, h, headNot]

theorem headNot_of_pfx {p : Char → Bool} {l1 l2 : List Char}
    (hp : l1 <+: l2) (h : headNot p l2 = true) : headNot p l1 = true := by
  cases l1 with
  | nil => rfl
  | cons c t =>
    rcases hp with ⟨r, rfl⟩
    exact h

theorem isTrimmed_jsTrim (s : List Char) : isTrimmed (jsTrim s) = true := by
  unfold isTrimmed jsTrim
  rw [Bool.and_eq_true]
  constructor
  · have h1 : ((trimLeftWs s).reverse.dropWhile isWsChar) <:+ (trimLeftWs s).reverse :=
      List.dropWhile_suffix _
    have h2 : ((trimLeftWs s).reverse.dropWhile isWsChar).reverse <+:
        (trimLeftWs s).reverse.reverse := List.reverse_prefix.mpr h1
    rw [List.reverse_reverse] at h2
    exact headNot_of_pfx h2 (headNot_dropWhile _ _)
  · rw [List.reverse_reverse]
    exact headNot_dropWhile _ _

theorem ws_false_of_digit {c : Char} (h : isDigitC c = true) : isWsChar c = false := by
  unfold isDigitC at h
  simp only [Bool.and_eq_true, decide_eq_true_eq] at h
  unfold isWsChar
  simp only [Bool.or_eq_false_iff, decide_eq_false_iff_not]
  omega

theorem headNot_of_all {p q : Char → Bool} {l : List Char} (h : l.all q = true)
    (himp : ∀ c, q c = true → p c = false) : headNot p l = true := by
  cases l with
  | nil => rfl
  | cons c t =>
    simp only [List.all_cons, Bool.and_eq_true] at h
    simp only [headNot, Bool.not_eq_true']
    exact himp c h.1

theorem isTrimmed_of_digits {l : List Char} (h : l.all isDigitC = true) :
    isTrimmed l = true := by
  unfold isTrimmed
  rw [Bool.and_eq_true]
  refine ⟨headNot_of_all h (fun c hc => ws_false_of_digit hc), ?_⟩
  have h2 : l.reverse.all isDigitC = true := by
    rw [List.all_reverse]
    exact h
  exact headNot_of_all h2 (fun c hc => ws_false_of_digit hc)

theorem matchSizeTok_concrete {d1 d2 rest : List Char}
    (h1a : d1 ≠ []) (h1b : d1.all isDigitC = true)
    (h2a : d2 ≠ []) (h2b : d2.all isDigitC = true)
    (hr : headNot isDigitC rest = true)
    (hbb : bbTok.isPrefixOf rest = false) :
    matchSizeTok (d1 ++ 'x' :: (d2 ++ rest)) = some rest := by
  have ht1 : (d1 ++ 'x' :: (d2 ++ rest)).takeWhile isDigitC = d1 := by
    rw [takeWhile_append_of_all h1b]
    have hx : ('x' :: (d2 ++ rest)).takeWhile isDigitC = [] := by
      simp [List.takeWhile_cons, (by decide : isDigitC 'x' = false)]
    rw [hx, List.append_nil]
  have hd1 : (d1 ++ 'x' :: (d2 ++ rest)).drop d1.length = 'x' :: (d2 ++ rest) :=
    List.drop_left d1 _
  have ht2 : (d2 ++ rest).takeWhile isDigitC = d2 := by
    rw [takeWhile_append_of_all h2b, takeWhile_eq_nil_of_head hr, List.append_nil]
  have hd2 : (d2 ++ rest).drop d2.length = rest := List.drop_left d2 rest
  unfold matchSizeTok
  simp only [ht1, hd1, ht2, hd2, hbb]
  rw [if_neg h1a]
  rw [if_neg h2a]
  simp

theorem replaceFirstSizeTok_noSlash {r u : List Char} (h : noSlash u = true) :
    replaceFirstSizeTok r u = u := by
  induction u with
  | nil => rfl
  | cons c t ih =>
    simp only [noSlash, Bool.and_eq_true, Bool.not_eq_true', beq_eq_false_iff_ne] at h
    unfold replaceFirstSizeTok
    rw [if_neg h.1, ih h.2]

theorem headNot_append {p : Char → Bool} {t X : List Char} {c : Char}
    (ht : headNot p t = true) (hc : p c = false) : headNot p (t ++ c :: X) = true := by
  cases t with
  | nil => simp [headNot, hc]
  | cons d t2 => exact ht

theorem matchSizeTok_none_of_head {l : List Char} (h : headNot isDigitC l = true) :
    matchSizeTok l = none := by
  unfold matchSizeTok
  rw [takeWhile_eq_nil_of_head h]
  simp

theorem replaceFirstSizeTok_first {r a d1 d2 rest : List Char}
    (hA : noSlashDigit a = true)
    (h1a : d1 ≠ []) (h1b : d1.all isDigitC = true)
    (h2a : d2 ≠ []) (h2b : d2.all isDigitC = true)
    (hr : headNot isDigitC rest = true)
    (hbb : bbTok.isPrefixOf rest = false) :
    replaceFirstSizeTok r (a ++ '/' :: (d1 ++ 'x' :: (d2 ++ rest)))
      = a ++ '/' :: (r ++ rest) := by
  induction a with
  | nil =>
    simp only [List.nil_append]
    unfold replaceFirstSizeTok
    rw [if_pos rfl, matchSizeTok_concrete h1a h1b h2a h2b hr hbb]
  | cons c t ih =>
    simp only [noSlashDigit, Bool.and_eq_true, Bool.or_eq_true, Bool.not_eq_true',
      beq_eq_false_iff_ne] at hA
    simp only [List.cons_append]
    unfold replaceFirstSizeTok
    by_cases hc : c = '/'
    · subst hc
      rw [if_pos rfl]
      have hhd : headNot isDigitC t = true := by
        rcases hA.1 with h | h
        · exact absurd rfl h
        · exact h
      have hnone : matchSizeTok (t ++ '/' :: (d1 ++ 'x' :: (d2 ++ rest))) = none :=
        matchSizeTok_none_of_head (headNot_append hhd (by decide))
      rw [hnone, ih hA.2]
    · rw [if_neg hc, ih hA.2]

theorem replaceFirstSizeTok_id {r u : List Char} (h : hasSlashSizeTok u = false) :
    replaceFirstSizeTok r u = u := by
  induction u with
  | nil => rfl
  | cons c t ih =>
    unfold hasSlashSizeTok at h
    simp only [Bool.or_eq_false_iff, Bool.and_eq_false_iff] at h
    unfold replaceFirstSizeTok
    by_cases hc : c = '/'
    · subst hc
      rw [if_pos rfl]
      cases hm : matchSizeTok t with
      | some x =>
        exfalso
        rcases h.1 with h1 | h1
        · simp at h1
        · rw [hm] at h1
          simp at h1
      | none =>
        rw [ih h.2]
    · rw [if_neg hc, ih h.2]

theorem pfxParse_usePng (b : Bool) (st : List Char) : (pfxParse b st).usePng = b := by
  simp only [pfxParse]
  split <;> rfl

theorem pfxParse_lookup (b : Bool) (st : List Char) :
    (pfxParse b st).lookupMode = false := by
  simp only [pfxParse]
  split <;> rfl

theorem countryStep_snd_or (st : List Char) :
    (countryStep st).2 = st ∨ ∃ y, (countryStep st).2 = jsTrim y := by
  unfold countryStep
  split
  · right
    exact ⟨_, rfl⟩
  · left
    rfl

theorem entityStep_snd_or (st : List Char) :
    (entityStep st).2.2 = st ∨ ∃ y, (entityStep st).2.2 = jsTrim y := by
  unfold entityStep
  split
  · right
    exact ⟨_, rfl⟩
  · left
    rfl

theorem pfxParse_searchTerm_or (b : Bool) (st : List Char) :
    (pfxParse b st).searchTerm = st ∨ ∃ y, (pfxParse b st).searchTerm = jsTrim y := by
  simp only [pfxParse]
  split
  · right
    exact ⟨_, rfl⟩
  · rcases entityStep_snd_or (countryStep st).2 with h | ⟨y, hy⟩
    · rcases countryStep_snd_or st with h2 | ⟨y2, hy2⟩
      · left
        show (entityStep (countryStep st).2).2.2 = st
        rw [h, h2]
      · right
        refine ⟨y2, ?_⟩
        show (entityStep (countryStep st).2).2.2 = jsTrim y2
        rw [h, hy2]
    · right
      refine ⟨y, ?_⟩
      show (entityStep (countryStep st).2).2.2 = jsTrim y
      exact hy

theorem matchUrlAt_digits {s : List Char} {w : List Char × List Char}
    (h : matchUrlAt s = some w) : w.2.all isDigitC = true := by
  unfold matchUrlAt at h
  simp only [] at h
  split at h
  · simp at h
  · split at h
    · simp at h
    · split at h
      · simp at h
      · have hw := Option.some.inj h
        rw [← hw]
        exact List.all_takeWhile

theorem urlMatch_digits {s : List Char} {w : List Char × List Char}
    (h : urlMatch s = some w) : w.2.all isDigitC = true := by
  induction s with
  | nil => simp [urlMatch] at h
  | cons c t ih =>
    unfold urlMatch at h
    split at h
    · rename_i r hr
      have hw := Option.some.inj h
      rw [← hw]
      exact matchUrlAt_digits hr
    · exact ih h

theorem key_false_of_noPfx {t : List Char} (h : noPfxTok t = true) {k : List Char}
    (hk : k ∈ pfxKeys) : k.isPrefixOf (jsToLower t) = false := by
  unfold noPfxTok at h
  rw [Bool.not_eq_true'] at h
  by_contra hne
  rw [Bool.not_eq_false] at hne
  have hany : pfxKeys.any (fun k2 => k2.isPrefixOf (jsToLower t)) = true :=
    List.any_eq_true.mpr ⟨k, hk, hne⟩
  rw [hany] at h
  cases h

theorem find?_none_country {t : List Char} (h : noPfxTok t = true) :
    countryPairs.find? (fun pr => pr.1.isPrefixOf (jsToLower t)) = none := by
  rw [List.find?_eq_none]
  intro pr hpr
  have hk : pr.1 ∈ pfxKeys := by
    unfold pfxKeys
    refine List.mem_append.mpr (Or.inl (List.mem_append.mpr (Or.inl ?_)))
    exact List.mem_map.mpr ⟨pr, hpr, rfl⟩
  simp [key_false_of_noPfx h hk]

theorem find?_none_entity {t : List Char} (h : noPfxTok t = true) :
    entityPairs.find? (fun pr => pr.1.isPrefixOf (jsToLower t)) = none := by
  rw [List.find?_eq_none]
  intro pr hpr
  have hk : pr.1 ∈ pfxKeys := by
    unfold pfxKeys
    refine List.mem_append.mpr (Or.inl (List.mem_append.mpr (Or.inr ?_)))
    exact List.mem_map.mpr ⟨pr, hpr, rfl⟩
  simp [key_false_of_noPfx h hk]

theorem find?_none_attr {t : List Char} (h : noPfxTok t = true) :
    attrPairs.find? (fun pr => pr.1.isPrefixOf (jsToLower t)) = none := by
  rw [List.find?_eq_none]
  intro pr hpr
  have hk : pr.1 ∈ pfxKeys := by
    unfold pfxKeys
    refine List.mem_append.mpr (Or.inr ?_)
    exact List.mem_map.mpr ⟨pr, hpr, rfl⟩
  simp [key_false_of_noPfx h hk]

theorem parseSearchTerm_clean {t : List Char}
    (h1 : containsCI pngTok t = false) (h2 : urlMatch t = none)
    (h3 : noPfxTok t = true) :
    parseSearchTerm t =
      { searchTerm := t, entity := Entity.album, countryCode := usTok,
        usePng := false, attrib := [], lookupMode := false } := by
  have hps : pfxParse false t =
      { searchTerm := t, entity := Entity.album, countryCode := usTok,
        usePng := false, attrib := [], lookupMode := false } := by
    simp only [pfxParse, countryStep, entityStep, find?_none_country h3,
      find?_none_entity h3]
    simp only [find?_none_attr h3]
  simp only [parseSearchTerm, h1, Bool.false_eq_true, if_false, h2]
  by_cases h0 : t = []
  · subst h0
    simp
  · rw [if_neg h0, hps]

theorem pfxParse_trim_or (b : Bool) (st0 : List Char) :
    (pfxParse b st0).searchTerm = st0 ∨
      isTrimmed (pfxParse b st0).searchTerm = true := by
  rcases pfxParse_searchTerm_or b st0 with h | ⟨y, hy⟩
  · left
    exact h
  · right
    rw [hy]
    exact isTrimmed_jsTrim y

theorem parse_nonurl_branch_trim {b : Bool} {st0 raw : List Char}
    (hst : st0 = raw ∨ isTrimmed st0 = true) :
    (pfxParse b st0).searchTerm = raw ∨
      isTrimmed (pfxParse b st0).searchTerm = true := by
  rcases pfxParse_trim_or b st0 with h | h
  · rw [h]
    exact hst
  · right
    exact h

theorem parse_tail_usePng (b : Bool) (st0 : List Char) :
    (if st0 = [] then
        ({ searchTerm := st0, entity := Entity.album, countryCode := usTok,
           usePng := b, attrib := [], lookupMode := false } : ParsedQuery)
      else pfxParse b st0).usePng = b := by
  split
  · rfl
  · exact pfxParse_usePng _ _

theorem parse_tail_trim {b : Bool} {st0 raw : List Char}
    (hst : st0 = raw ∨ isTrimmed st0 = true) :
    (if st0 = [] then
        ({ searchTerm := st0, entity := Entity.album, countryCode := usTok,
           usePng := b, attrib := [], lookupMode := false } : ParsedQuery)
      else pfxParse b st0).searchTerm = raw ∨
      isTrimmed
        (if st0 = [] then
            ({ searchTerm := st0, entity := Entity.album, countryCode := usTok,
               usePng := b, attrib := [], lookupMode := false } : ParsedQuery)
          else pfxParse b st0).searchTerm = true := by
  split
  · rename_i h0
    right
    show isTrimmed st0 = true
    rw [h0]
    rfl
  · exact parse_nonurl_branch_trim hst

/-- Claim C3: the source selects the lookup API only when a storefront URL is
    recognized; a bare numeric identifier is parsed with lookupMode false and
    goes through search by term, while a storefront URL yields lookupMode true
    with the extracted digits as the term.  This theorem evaluates the parser
    at the failing input 284882215 and at a storefront URL. -/
theorem parse_bare_id_not_lookup :
    (parseSearchTerm ("284882215".data)).lookupMode = false ∧
    (parseSearchTerm ("284882215".data)).searchTerm = "284882215".data ∧
    (parseSearchTerm
        ("https://apps.apple.com/us/app/instagram/id389801252".data)).lookupMode = true ∧
    (parseSearchTerm
        ("https://apps.apple.com/us/app/instagram/id389801252".data)).searchTerm
      = "389801252".data ∧
    (parseSearchTerm
        ("https://apps.apple.com/us/app/instagram/id389801252".data)).entity
      = Entity.software := by decide

/-- Claim C4: parsing the input with country prefix uk, attribute prefix
    artist, term Coldplay and the png modifier yields country gb, attribute
    artistTerm, media kind album, search term Coldplay and png output. -/
theorem parse_uk_artist_coldplay_png :
    parseSearchTerm ("uk: artist: Coldplay .png".data) =
      { searchTerm := "Coldplay".data, entity := Entity.album,
        countryCode := "gb".data, usePng := true,
        attrib := "artistTerm".data, lookupMode := false } := by decide

/-- Claim C5, as amended: the usePng flag is true exactly when the raw term
    contains the png token case-insensitively; the token removal runs as two
    global passes, both happening before prefix stripping, and nested tokens
    can survive both passes, so the final search term is not guaranteed to be
    free of the token. -/
theorem parse_usePng_iff (raw : List Char) :
    (parseSearchTerm raw).usePng = containsCI pngTok raw := by
  simp only [parseSearchTerm]
  split
  · rfl
  · exact parse_tail_usePng _ _

/-- Claim C5, counterexample: on a nested input the two removal passes
    reconstruct the png token, so the returned search term still contains it,
    refuting the claim that the search term never contains the token. -/
theorem parse_png_residue_counterexample :
    containsCI pngTok ((parseSearchTerm (".p.p.pngngng".data)).searchTerm) = true ∧
    (parseSearchTerm (".p.p.pngngng".data)).searchTerm = ".png".data ∧
    containsCI pngTok (".p.p.pngngng".data) = true := by decide

/-- Claim C6, as amended: the returned search term is either the raw input
    returned verbatim, which happens when no png token, no URL and no prefix
    was recognized, or a trimmed string.  The claim that it is always trimmed
    fails exactly in the verbatim case. -/
theorem parse_searchTerm_trim_or_raw (raw : List Char) :
    (parseSearchTerm raw).searchTerm = raw ∨
      isTrimmed ((parseSearchTerm raw).searchTerm) = true := by
  simp only [parseSearchTerm]
  split
  · rename_i wid hm
    right
    exact isTrimmed_of_digits (urlMatch_digits hm)
  · apply parse_tail_trim
    repeat' split
    all_goals first
      | (left; rfl)
      | (right; exact isTrimmed_jsTrim _)

/-- Claim C6, counterexample: an input with surrounding spaces and no
    recognized decoration is returned verbatim, spaces included, refuting the
    claim that the search term always has no leading or trailing whitespace. -/
theorem parse_untrimmed_counterexample :
    (parseSearchTerm (" hello ".data)).searchTerm = " hello ".data ∧
    isTrimmed ((parseSearchTerm (" hello ".data)).searchTerm) = false := by decide

/-- Claim C8, as amended: parsing is idempotent on terms that parse cleanly:
    when the search term returned by a parse contains no png token, matches no
    storefront URL and starts with no recognized prefix, parsing it again
    returns it unchanged together with the all-default query.  In general the
    returned term can retain residue, such as a second country prefix, that a
    second parse consumes. -/
theorem parse_idem_clean (raw : List Char)
    (h1 : containsCI pngTok ((parseSearchTerm raw).searchTerm) = false)
    (h2 : urlMatch ((parseSearchTerm raw).searchTerm) = none)
    (h3 : noPfxTok ((parseSearchTerm raw).searchTerm) = true) :
    parseSearchTerm ((parseSearchTerm raw).searchTerm) =
      { searchTerm := (parseSearchTerm raw).searchTerm, entity := Entity.album,
        countryCode := usTok, usePng := false, attrib := [],
        lookupMode := false } :=
  parseSearchTerm_clean h1 h2 h3

/-- Witness for claim C8 at the concrete input uk colon x. -/
theorem parse_idem_clean_witness :
    (containsCI pngTok ((parseSearchTerm ("uk: x".data)).searchTerm) = false ∧
     urlMatch ((parseSearchTerm ("uk: x".data)).searchTerm) = none ∧
     noPfxTok ((parseSearchTerm ("uk: x".data)).searchTerm) = true) ∧
    parseSearchTerm ((parseSearchTerm ("uk: x".data)).searchTerm) =
      { searchTerm := (parseSearchTerm ("uk: x".data)).searchTerm,
        entity := Entity.album, countryCode := usTok, usePng := false,
        attrib := [], lookupMode := false } :=
  ⟨⟨by decide, by decide, by decide⟩,
   parse_idem_clean ("uk: x".data) (by decide) (by decide) (by decide)⟩

/-- Claim C8, counterexample: a doubled country prefix leaves residue in the
    returned search term, and reparsing that term consumes it, changing both
    the term and the country, refuting unconditional idempotence. -/
theorem parse_idem_counterexample :
    (parseSearchTerm ("uk: uk: x".data)).searchTerm = "uk: x".data ∧
    (parseSearchTerm ("uk: x".data)).searchTerm = "x".data ∧
    (parseSearchTerm ("uk: x".data)).countryCode = "gb".data := by decide

/-- Claim C1, as amended: the resize primitive replaces the first
    slash-anchored size token with the target size followed by the dash 999
    marker and then guarantees a jpg ending by appending the jpg extension
    whenever the URL does not already end in jpg, even when another image
    extension such as png is already present; with png output the trailing
    jpg is rewritten to png. -/
theorem fixArtworkUrl_ext_guarantee (url sz : List Char) :
    endsWith jpgE (fixArtworkUrl false url sz) = true ∧
    endsWith pngE (fixArtworkUrl true url sz) = true ∧
    (endsWith jpgE (replaceFirstSizeTok (sizeRepl sz) url) = false →
      fixArtworkUrl false url sz
        = replaceFirstSizeTok (sizeRepl sz) url ++ jpgE) := by
  refine ⟨fixArtworkUrl_false_ends_jpg url sz, fixArtworkUrl_true_ends_png url sz, ?_⟩
  intro h
  simp only [fixArtworkUrl, h, Bool.false_eq_true, if_false]

/-- Witness for claim C1 at a URL that ends in png. -/
theorem fixArtworkUrl_ext_guarantee_witness :
    endsWith jpgE (replaceFirstSizeTok (sizeRepl tok600)
        ("https://x/100x100bb.png".data)) = false ∧
    fixArtworkUrl false ("https://x/100x100bb.png".data) tok600
      = replaceFirstSizeTok (sizeRepl tok600) ("https://x/100x100bb.png".data) ++ jpgE :=
  ⟨by decide,
   (fixArtworkUrl_ext_guarantee ("https://x/100x100bb.png".data) tok600).2.2 (by decide)⟩

/-- Claim C1, counterexample: on a template URL ending in png the primitive
    still appends jpg, producing a double extension, which refutes the claim
    that jpg is appended only when no recognized image extension is present. -/
theorem fixArtworkUrl_png_counterexample :
    endsWith pngE ("https://x/100x100bb.png".data) = true ∧
    fixArtworkUrl false ("https://x/100x100bb.png".data) tok600
      = "https://x/600x600-999.png.jpg".data := by decide

/-- Claim C2, as amended: for an album result the default branch yields
    exactly 4 links, the sizes 600, 1500, 3000 and the maximum resolution
    URL, and when the host rewrite does not fire on the resized URL all 4
    links end in jpg, or all in png when png output is requested; when the
    thumbnail matches the mzstatic image thumb pattern the host rewrite drops
    the filename, so the maximum resolution link carries no extension. -/
theorem deriveLinks_album_exts (url : List Char) (p : Bool)
    (h : hostRewrite (fixArtworkUrl p url tok10000) = fixArtworkUrl p url tok10000) :
    (deriveLinks Entity.album p url).length = 4 ∧
    ((deriveLinks Entity.album p url).map Prod.snd).all
        (fun u => endsWith (if p then pngE else jpgE) u) = true := by
  refine ⟨rfl, ?_⟩
  cases p with
  | false =>
    have h5 : endsWith jpgE (artworkUrl5000 false url) = true := by
      unfold artworkUrl5000
      rw [h]
      exact stripBbAfterSlash_ends (Or.inl rfl) (fixArtworkUrl_false_ends_jpg url tok10000)
    simp [deriveLinks, fixArtworkUrl_false_ends_jpg, h5]
  | true =>
    have h5 : endsWith pngE (artworkUrl5000 true url) = true := by
      unfold artworkUrl5000
      rw [h]
      exact stripBbAfterSlash_ends (Or.inr rfl) (fixArtworkUrl_true_ends_png url tok10000)
    simp [deriveLinks, fixArtworkUrl_true_ends_png, h5]

/-- Witness for claim C2 at a thumbnail URL outside the mzstatic pattern. -/
theorem deriveLinks_album_exts_witness :
    (hostRewrite (fixArtworkUrl false ("https://x.example/100x100bb.jpg".data) tok10000)
        = fixArtworkUrl false ("https://x.example/100x100bb.jpg".data) tok10000) ∧
    ((deriveLinks Entity.album false ("https://x.example/100x100bb.jpg".data)).length = 4 ∧
     ((deriveLinks Entity.album false
          ("https://x.example/100x100bb.jpg".data)).map Prod.snd).all
        (fun u => endsWith (if false then pngE else jpgE) u) = true) :=
  ⟨by decide, deriveLinks_album_exts ("https://x.example/100x100bb.jpg".data) false (by decide)⟩

/-- Claim C2, counterexample: a realistic mzstatic thumbnail of the stated
    shape triggers the host rewrite, which drops the filename from the
    maximum resolution link, so not all 4 links end in jpg. -/
theorem deriveLinks_album_counterexample :
    endsWith ("100x100bb.jpg".data)
        ("https://is1-ssl.mzstatic.com/image/thumb/Music/v4/ab/cd/source/100x100bb.jpg".data)
      = true ∧
    ((deriveLinks Entity.album false
        ("https://is1-ssl.mzstatic.com/image/thumb/Music/v4/ab/cd/source/100x100bb.jpg".data)).map
        Prod.snd).all (fun u => endsWith jpgE u) = false ∧
    artworkUrl5000 false
        ("https://is1-ssl.mzstatic.com/image/thumb/Music/v4/ab/cd/source/100x100bb.jpg".data)
      = "https://a1.mzstatic.com/us/r1000/063/Music/v4/ab/cd/source".data := by decide

/-- Claim C7: the movie and tv branches each yield exactly one link, the
    maximum resolution URL, and the two derivations are extensionally equal:
    the source duplicates the same code, substituting the size token by the
    oversized target with marker, stripping a trailing double b before the
    extension, ensuring a jpg ending and substituting png when requested,
    without the generic host rewrite step. -/
theorem movie_tv_links_identical (p : Bool) (url : List Char) :
    deriveLinks Entity.movie p url = [(labHD, movieHdUrl p url)] ∧
    deriveLinks Entity.tvSeason p url = [(labHD, tvHdUrl p url)] ∧
    movieHdUrl p url = tvHdUrl p url ∧
    (deriveLinks Entity.movie p url).length = 1 ∧
    (deriveLinks Entity.tvSeason p url).length = 1 :=
  ⟨rfl, rfl, rfl, rfl, rfl⟩

/-- Claim C9: artwork derivation is total and degrades gracefully: the
    embedding is built from total functions, a URL with no slash-anchored
    size token passes through the resize substitution unchanged and only the
    extension guarantee applies, and every media kind still yields its full
    set of links on any input. -/
theorem artwork_derivation_total (p : Bool) (url sz : List Char)
    (h : hasSlashSizeTok url = false) :
    replaceFirstSizeTok (sizeRepl sz) url = url ∧
    fixArtworkUrl false url sz = (if endsWith jpgE url then url else url ++ jpgE) ∧
    ∀ e : Entity, (deriveLinks e p url).length = linkCount e := by
  have hid : replaceFirstSizeTok (sizeRepl sz) url = url := replaceFirstSizeTok_id h
  refine ⟨hid, ?_, ?_⟩
  · simp only [fixArtworkUrl, hid, Bool.false_eq_true, if_false]
  · intro e
    cases e <;> rfl

/-- Witness for claim C9 at a malformed thumbnail URL with no size token. -/
theorem artwork_derivation_total_witness :
    hasSlashSizeTok ("notaurl.x".data) = false ∧
    replaceFirstSizeTok (sizeRepl tok600) ("notaurl.x".data) = "notaurl.x".data ∧
    (deriveLinks Entity.album false ("notaurl.x".data)).length = linkCount Entity.album :=
  ⟨by decide,
   (artwork_derivation_total false ("notaurl.x".data) tok600 (by decide)).1,
   (artwork_derivation_total false ("notaurl.x".data) tok600 (by decide)).2.2 Entity.album⟩

/-- Claim C10: the resize primitive rewrites only the first slash-anchored
    size token, leaving all later text, including further size tokens, byte
    for byte unchanged, and a size token not preceded by a slash is never
    replaced. -/
theorem sizeTok_first_slash_only (sz a d1 d2 rest : List Char)
    (hA : noSlashDigit a = true)
    (h1a : d1 ≠ []) (h1b : d1.all isDigitC = true)
    (h2a : d2 ≠ []) (h2b : d2.all isDigitC = true)
    (hr : headNot isDigitC rest = true)
    (hbb : bbTok.isPrefixOf rest = false) :
    replaceFirstSizeTok (sizeRepl sz) (a ++ '/' :: (d1 ++ 'x' :: (d2 ++ rest)))
      = a ++ '/' :: (sizeRepl sz ++ rest) ∧
    ∀ u : List Char, noSlash u = true → replaceFirstSizeTok (sizeRepl sz) u = u :=
  ⟨replaceFirstSizeTok_first hA h1a h1b h2a h2b hr hbb,
   fun _ hu => replaceFirstSizeTok_noSlash hu⟩

/-- Witness for claim C10 on a URL holding a second size token that is kept
    verbatim, and on a slashless size token that is never replaced. -/
theorem sizeTok_first_slash_only_witness :
    (noSlashDigit ("https://x.example".data) = true ∧
     bbTok.isPrefixOf (".jpg/200x200bb.png".data) = false) ∧
    replaceFirstSizeTok (sizeRepl tok600)
        (("https://x.example".data) ++ '/' ::
          (("100".data) ++ 'x' :: (("100".data) ++ (".jpg/200x200bb.png".data))))
      = ("https://x.example".data) ++ '/' :: (sizeRepl tok600 ++ (".jpg/200x200bb.png".data)) ∧
    replaceFirstSizeTok (sizeRepl tok600) ("100x100".data) = "100x100".data :=
  ⟨⟨by decide, by decide⟩,
   (sizeTok_first_slash_only tok600 ("https://x.example".data) ("100".data) ("100".data)
      (".jpg/200x200bb.png".data) (by decide) (by decide) (by decide) (by decide)
      (by decide) (by decide) (by decide)).1,
   (sizeTok_first_slash_only tok600 ("https://x.example".data) ("100".data) ("100".data)
      (".jpg/200x200bb.png".data) (by decide) (by decide) (by decide) (by decide)
      (by decide) (by decide) (by decide)).2 ("100x100".data) (by decide)⟩
